import Mathlib

/-!
Shallow embedding of `src/detect_pins_skewers.py` (class `PinSkewerDetector`)
and the external interfaces it consumes, together with proofs about the
embedded program.

Conventions:
* Squares are Python ints (`Int`), 0 = a1 .. 63 = h8, file = sq % 8,
  rank = sq / 8, exactly as in python-chess.
* `Color` is `Bool` with `true` = White (python-chess `WHITE = True`).
* `while True:` ray loops are embedded with an explicit fuel of 64; every
  loop in the source either strictly increases/decreases the linear square
  index (so it leaves `[0,64)` within 64 steps) or breaks at the first
  occupied square, so fuel 64 never changes the result of a reachable call.
* The external chess library (board snapshot, move application, engine
  oracle, PGN stream) is embedded at its interface boundary; each such
  definition carries a doc comment saying what it models.
-/

namespace PinSkewer

/-- Piece kinds, as in `chess.PAWN .. chess.KING`. -/
inductive PieceType
  | pawn
  | knight
  | bishop
  | rook
  | queen
  | king
deriving DecidableEq

/-- python-chess colors: `true` = White, `false` = Black. -/
abbrev Color := Bool

/-- A piece: `(kind, color)` pair, as in `chess.Piece`. -/
structure Piece where
  piece_type : PieceType
  color : Color
deriving DecidableEq

/-- The Board Snapshot query contract of the spec (piece occupancy, side to
move, king locations), the read-only view the detectors consume.
`pieceAt` models `board.piece_at`, `turn` models `board.turn`, `kingSq`
models `board.king` (the analysed positions all have both kings). -/
structure Board where
  pieceAt : Int → Option Piece
  turn : Color
  kingSq : Color → Int

/-- A move: origin square, destination square, optional promotion, as in
`chess.Move` (drops are not used by this program). -/
structure Move where
  from_sq : Int
  to_sq : Int
  promotion : Option PieceType
deriving DecidableEq

/-- `self.piece_values`: the static PieceValue table. -/
def piece_values : PieceType → Nat
  | .pawn => 1
  | .knight => 3
  | .bishop => 3
  | .rook => 5
  | .queen => 9
  | .king => 100

/-- `chess.square_file(sq)`: file index of a square. -/
def square_file (sq : Int) : Int := sq % 8

/-- `chess.square_rank(sq)`: rank index of a square. -/
def square_rank (sq : Int) : Int := sq / 8

/-- The source's repeated bound check `0 <= current_square < 64`. -/
def in_board (sq : Int) : Bool := decide (0 ≤ sq) && decide (sq < 64)

/-- File letters used by `chess.square_name`. -/
def file_names : List Char := ['a', 'b', 'c', 'd', 'e', 'f', 'g', 'h']

/-- Rank digits used by `chess.square_name`. -/
def rank_names : List Char := ['1', '2', '3', '4', '5', '6', '7', '8']

/-- `chess.square_name(sq)`: e.g. `square_name 0 = "a1"`. -/
def square_name (sq : Int) : String :=
  String.mk [file_names.getD (square_file sq).toNat 'x',
    rank_names.getD (square_rank sq).toNat 'x']

/-- The source's normalization `if d != 0: d //= abs(d)` (Python floor
division; exact here, so it is the sign of `d`). -/
def normalize_diff (d : Int) : Int := if d = 0 then d else d / (d.natAbs : Int)

/-- `chess.SQUARES`: the squares 0..63 in ascending order. -/
def squares_asc : List Int := (List.range 64).map Int.ofNat

/-- The squares 63..0, the order of python-chess `scan_reversed`. -/
def squares_desc : List Int := ((List.range 64).reverse).map Int.ofNat

/-- Same file predicate (python-chess vertical ray membership). -/
def same_file (a c : Int) : Bool := square_file a == square_file c

/-- Same rank predicate (python-chess horizontal ray membership). -/
def same_rank (a c : Int) : Bool := square_rank a == square_rank c

/-- Same diagonal or anti-diagonal predicate. -/
def same_diag (a c : Int) : Bool :=
  (square_file a - square_file c == square_rank a - square_rank c) ||
  (square_file a - square_file c == -(square_rank a - square_rank c))

/-- Two squares share a rank, file or diagonal. -/
def colinear (a c : Int) : Bool := same_file a c || same_rank a c || same_diag a c

/-- `board.piece_at(sq) is not None`, python-chess `occupied` membership. -/
def occupied (b : Board) (sq : Int) : Bool := (b.pieceAt sq).isSome

/-- The unit linear step from `a` toward an aligned square `c`
(file sign + 8 * rank sign). -/
def step_toward (a c : Int) : Int :=
  normalize_diff (square_file c - square_file a) +
    8 * normalize_diff (square_rank c - square_rank a)

/-- Squares strictly after `cur` stepping by `step`, up to (excluding) `target`;
fuel-bounded helper for `between_squares`. -/
def between_loop (target step : Int) : Nat → Int → List Int
  | 0, _ => []
  | fuel + 1, cur =>
    let nxt := cur + step
    if nxt = target then [] else nxt :: between_loop target step fuel nxt

/-- python-chess `chess.between(a, c)`: the squares strictly between two
aligned squares, empty when the squares are not aligned. -/
def between_squares (a c : Int) : List Int :=
  if colinear a c ∧ a ≠ c then between_loop c (step_toward a c) 8 a else []

/-- python-chess `chess.ray(a, c)` membership: `x` lies on the full line
through `a` and `c` (file, rank, diagonal or anti-diagonal), `false` when
`a` and `c` are not aligned. -/
def ray_mem (a c x : Int) : Bool :=
  if same_file a c then same_file a x
  else if same_rank a c then same_rank a x
  else if square_file a - square_file c == square_rank a - square_rank c then
    square_file a - square_file x == square_rank a - square_rank x
  else if square_file a - square_file c == -(square_rank a - square_rank c) then
    square_file a - square_file x == -(square_rank a - square_rank x)
  else false

/-- Rook-or-queen test (the sliders of the file/rank categories of
`pin_mask`). -/
def rook_or_queen (pt : PieceType) : Bool := pt == .rook || pt == .queen

/-- Bishop-or-queen test (the sliders of the diagonal category of
`pin_mask`). -/
def bishop_or_queen (pt : PieceType) : Bool := pt == .bishop || pt == .queen

/-- The sniper acceptance test of python-chess `Board.pin_mask`:
`between(sniper, king) & (occupied | BB_SQUARES[square]) == BB_SQUARES[square]`,
i.e. among the squares strictly between sniper and king, the occupied ones
together with `square` are exactly `{square}`. -/
def sniper_ok (b : Board) (square king s : Int) : Bool :=
  (between_squares s king).filter (fun t => occupied b t || t == square) == [square]

/-- Membership of `x` in `board.pin_mask(color, square)`, modelling the
python-chess library function consumed by `detect_pins`: the first of the
three ray categories (file, rank, diagonal — with rook/queen, rook/queen,
bishop/queen sliders) whose empty-board ray from the king contains `square`
is searched for a sniper (enemy slider on that ray, scanned in descending
square order) with only `square` between it and the king; if found the mask
is the full ray through king and sniper, otherwise (or when no category
matches) the mask is `BB_ALL`, i.e. every square is a member. -/
def pin_mask_mem (b : Board) (color : Color) (square x : Int) : Bool :=
  let king := b.kingSq color
  let catRay (onRay : Int → Int → Bool) (isSlider : PieceType → Bool) : Option Bool :=
    if onRay king square then
      let snipers := squares_desc.filter (fun s =>
        onRay king s &&
          (match b.pieceAt s with
           | some p => isSlider p.piece_type && (p.color != color)
           | none => false))
      match snipers.find? (fun s => sniper_ok b square king s) with
      | some s => some (ray_mem king s x)
      | none => some true
    else none
  let onFile : Int → Int → Bool := fun k t => same_file k t && t != k
  let onRank : Int → Int → Bool := fun k t => same_rank k t && t != k
  let onDiag : Int → Int → Bool := fun k t => same_diag k t && t != k
  match catRay onFile rook_or_queen with
  | some r => r
  | none =>
    match catRay onRank rook_or_queen with
    | some r => r
    | none =>
      match catRay onDiag bishop_or_queen with
      | some r => r
      | none => true

/-- `can_piece_pin(piece_type, file_diff, rank_diff)`. -/
def can_piece_pin (pt : PieceType) (file_diff rank_diff : Int) : Bool :=
  match pt with
  | .queen => true
  | .rook => file_diff == 0 || rank_diff == 0
  | .bishop => file_diff.natAbs == rank_diff.natAbs
  | _ => false

/-- The dictionary returned by `find_pinning_piece`. -/
structure PinnerInfo where
  piece_type : PieceType
  square : String
deriving DecidableEq

/-- The `while True:` loop of `find_pinning_piece`: step by
`- file_diff - 8 * rank_diff`, stop off `[0,64)`, return the first occupied
square's piece when it is an opposing piece that can pin in this direction,
otherwise stop at the first occupied square. -/
def find_pinning_loop (b : Board) (file_diff rank_diff : Int) :
    Nat → Int → Option PinnerInfo
  | 0, _ => none
  | fuel + 1, current_square =>
    let nxt := current_square - file_diff - 8 * rank_diff
    if in_board nxt then
      match b.pieceAt nxt with
      | some piece =>
        if piece.color != b.turn && can_piece_pin piece.piece_type file_diff rank_diff then
          some ⟨piece.piece_type, square_name nxt⟩
        else none
      | none => find_pinning_loop b file_diff rank_diff fuel nxt
    else none

/-- `find_pinning_piece(board, pinned_square, king_square)`. -/
def find_pinning_piece (b : Board) (pinned_square king_square : Int) :
    Option PinnerInfo :=
  let file_diff := normalize_diff (square_file king_square - square_file pinned_square)
  let rank_diff := normalize_diff (square_rank king_square - square_rank pinned_square)
  find_pinning_loop b file_diff rank_diff 64 pinned_square

/-- A pin record as built by `detect_pins` (the constant `'type': 'pin'` and
`'target': 'king'` entries are carried by the record kind itself). -/
structure PinRec where
  pinned_piece : PieceType
  pinned_square : String
  pinning_piece : PieceType
  pinning_square : String
deriving DecidableEq

/-- `detect_pins(board)`: squares are scanned in ascending order; the mask
test is `pin_mask(board.turn, board.king(board.turn)) & BB_SQUARES[square]`
with the mask computed at the king's own square, exactly as in the source. -/
def detect_pins (b : Board) : List PinRec :=
  squares_asc.foldl (fun pins square =>
    if pin_mask_mem b b.turn (b.kingSq b.turn) square then
      match b.pieceAt square with
      | some piece =>
        if piece.color == b.turn then
          match find_pinning_piece b square (b.kingSq b.turn) with
          | some pp =>
            pins ++ [⟨piece.piece_type, square_name square, pp.piece_type, pp.square⟩]
          | none => pins
        else pins
      | none => pins
    else pins) []

/-- An entry of `pieces_in_line` in `find_skewers_from_piece`. -/
structure LinePiece where
  square : Int
  piece_type : PieceType
  value : Nat
deriving DecidableEq

/-- The `while True:` collection loop of `find_skewers_from_piece`: step by
`file_diff + 8 * rank_diff`, stop off `[0,64)`, collect opposing pieces,
stop after collecting two or at a friendly piece. -/
def skewer_walk (b : Board) (att_color : Color) (file_diff rank_diff : Int) :
    Nat → Int → List LinePiece → List LinePiece
  | 0, _, acc => acc
  | fuel + 1, current_square, acc =>
    let nxt := current_square + file_diff + 8 * rank_diff
    if in_board nxt then
      match b.pieceAt nxt with
      | some target =>
        if target.color != att_color then
          let acc2 := acc ++ [⟨nxt, target.piece_type, piece_values target.piece_type⟩]
          if acc2.length == 2 then acc2
          else skewer_walk b att_color file_diff rank_diff fuel nxt acc2
        else acc
      | none => skewer_walk b att_color file_diff rank_diff fuel nxt acc
    else acc

/-- A skewer record as built by `find_skewers_from_piece` (the constant
`'type': 'skewer'` entry is carried by the record kind itself). -/
structure SkewerRec where
  attacking_piece : PieceType
  attacking_square : String
  front_target : PieceType
  front_square : String
  back_target : PieceType
  back_square : String
deriving DecidableEq

/-- The direction list built at the top of `find_skewers_from_piece`. -/
def skewer_dirs (pt : PieceType) : List (Int × Int) :=
  (if pt == .queen || pt == .rook then
    [(0, 1), (0, -1), (1, 0), (-1, 0)] else []) ++
  (if pt == .queen || pt == .bishop then
    [(1, 1), (1, -1), (-1, 1), (-1, -1)] else [])

/-- `find_skewers_from_piece(board, piece_square, piece)`. -/
def find_skewers_from_piece (b : Board) (piece_square : Int) (piece : Piece) :
    List SkewerRec :=
  (skewer_dirs piece.piece_type).foldl (fun skewers dir =>
    let pieces_in_line :=
      skewer_walk b piece.color dir.1 dir.2 64 piece_square []
    match pieces_in_line with
    | [front_piece, back_piece] =>
      if front_piece.value > back_piece.value then
        skewers ++ [⟨piece.piece_type, square_name piece_square,
          front_piece.piece_type, square_name front_piece.square,
          back_piece.piece_type, square_name back_piece.square⟩]
      else skewers
    | _ => skewers) []

/-- `sliding_pieces = [chess.QUEEN, chess.ROOK, chess.BISHOP]`. -/
def sliding_pieces : List PieceType := [.queen, .rook, .bishop]

/-- `detect_skewers(board)`: squares scanned in ascending order, records of
each friendly sliding piece appended via `extend`. -/
def detect_skewers (b : Board) : List SkewerRec :=
  squares_asc.foldl (fun skewers square =>
    match b.pieceAt square with
    | some piece =>
      if piece.color == b.turn && sliding_pieces.contains piece.piece_type then
        skewers ++ find_skewers_from_piece b square piece
      else skewers
    | none => skewers) []

/-- Modelled from the spec: `apply(move) -> Board Snapshot` of the Board
Snapshot contract (python-chess `Board.push` on a copy), the external rules
engine's move application, for the ordinary moves this development
exercises: the piece on the origin square is placed on the destination
(promoting when requested), the origin is cleared, the side to move flips,
and the king-square table follows a king move.  Castling rook movement and
en-passant captures are not modelled; a move from an empty square only
flips the side to move. -/
def push (b : Board) (m : Move) : Board :=
  match b.pieceAt m.from_sq with
  | some p =>
    let moved : Piece :=
      match m.promotion with
      | some pt => ⟨pt, p.color⟩
      | none => p
    { pieceAt := fun sq =>
        if sq == m.to_sq then some moved
        else if sq == m.from_sq then none
        else b.pieceAt sq
      turn := !b.turn
      kingSq := fun c =>
        if p.piece_type == PieceType.king && c == p.color then m.to_sq
        else b.kingSq c }
  | none => { b with turn := !b.turn }

/-- Python truthiness of a `chess.Move`: a move is falsy exactly when origin,
destination and promotion are all zero/absent (the null move). -/
def move_truthy (m : Move) : Bool :=
  !(m.from_sq == 0 && m.to_sq == 0 && m.promotion == none)

/-- Python truthiness of an `Optional[chess.Move]` (`not player_move`). -/
def opt_move_falsy : Option Move → Bool
  | none => true
  | some m => !(move_truthy m)

/-- A tactic record: an element of the heterogeneous `pins + skewers` list
(`'type'` discriminator `'pin'` / `'skewer'`). -/
inductive TacticRec
  | pin (r : PinRec)
  | skewer (r : SkewerRec)
deriving DecidableEq

/-- `move_creates_pin_or_skewer(board, move)`: the move is made on a copy
(`board.copy(); push`), both detectors run on the copy, and the caller's own
board is left as it was — the second component is the caller-visible board
state after the call, making the absence of mutation explicit. -/
def move_creates_pin_or_skewer (board : Board) (move : Move) :
    List TacticRec × Board :=
  let board_copy := board
  let board_copy := push board_copy move
  let pins := detect_pins board_copy
  let skewers := detect_skewers board_copy
  ((pins.map TacticRec.pin) ++ (skewers.map TacticRec.skewer), board)

/-- Modelled from the spec: the external collaborators of §6 that the
analyzers consume — the best-move oracle (`get_best_move`, source lines
173–179: the engine's principal variation head, or `None` on engine failure,
timeout or missing pv), the terminal-position test (`board.is_game_over()`)
and the legality test (`board.is_legal(move)`) of the rules engine. -/
structure Ext where
  bestMove : Board → Option Move
  isGameOver : Board → Bool
  isLegal : Board → Move → Bool

/-- The `{'executed': [...], 'missed': [...], 'allowed': [...]}` dictionary
of `analyze_position`. -/
structure PositionResult where
  executed : List TacticRec
  missed : List TacticRec
  allowed : List TacticRec
deriving DecidableEq

/-- `analyze_position(board, player_move)` with the oracle handle made
explicit.  Mirrors the source: early return on a falsy move, one pre-move
oracle query, `executed` from the played move, `missed` from a differing
recommendation, `allowed` from the opponent's recommended reply on the
post-move position when it is not game over. -/
def analyze_position (ext : Ext) (board : Board) (player_move : Option Move) :
    PositionResult :=
  if opt_move_falsy player_move then ⟨[], [], []⟩
  else
    match player_move with
    | none => ⟨[], [], []⟩
    | some pm =>
      let best_move := ext.bestMove board
      let player_tactics := (move_creates_pin_or_skewer board pm).1
      let executed := if player_tactics.isEmpty then [] else player_tactics
      let missed :=
        match best_move with
        | some bm =>
          if move_truthy bm && bm != pm then
            let best_move_tactics := (move_creates_pin_or_skewer board bm).1
            if best_move_tactics.isEmpty then [] else best_move_tactics
          else []
        | none => []
      let board_after_move := push board pm
      let allowed :=
        if !(ext.isGameOver board_after_move) then
          match ext.bestMove board_after_move with
          | some opponent_best =>
            if move_truthy opponent_best then
              let opponent_tactics :=
                (move_creates_pin_or_skewer board_after_move opponent_best).1
              if opponent_tactics.isEmpty then [] else opponent_tactics
            else []
          | none => []
        else []
      ⟨executed, missed, allowed⟩

/-- A tactic record after `analyze_game` adds `'move_number'` and
`'color'` keys. -/
structure TaggedTactic where
  tactic : TacticRec
  move_number : Nat
  color : String
deriving DecidableEq

/-- The per-game result dictionary of `analyze_game`. -/
structure GameResult where
  executed : List TaggedTactic
  missed : List TaggedTactic
  allowed : List TaggedTactic
deriving DecidableEq

/-- One game of the PGN stream: `game.board()` (the starting position) and
`game.mainline_moves()`; the headers are only printed and are not modelled. -/
structure Game where
  start : Board
  moves : List Move

/-- Tag a category's records with the move number and mover color. -/
def tag_all (mn : Nat) (col : String) (l : List TacticRec) : List TaggedTactic :=
  l.map (fun t => ⟨t, mn, col⟩)

/-- The per-move loop of `analyze_game`: analyze while legal, tag and append
each category, push the move, increment the full-move counter after Black's
move; `break` at the first illegal move, returning what was accumulated. -/
def analyze_game_loop (ext : Ext) :
    Board → Nat → GameResult → List Move → GameResult
  | _, _, acc, [] => acc
  | board, move_number, acc, move :: rest =>
    if ext.isLegal board move then
      let pr := analyze_position ext board (some move)
      let col := if board.turn then "white" else "black"
      let acc2 : GameResult :=
        ⟨acc.executed ++ tag_all move_number col pr.executed,
         acc.missed ++ tag_all move_number col pr.missed,
         acc.allowed ++ tag_all move_number col pr.allowed⟩
      let board2 := push board move
      let move_number2 := if board2.turn then move_number + 1 else move_number
      analyze_game_loop ext board2 move_number2 acc2 rest
    else acc

/-- `analyze_game(game)`. -/
def analyze_game (ext : Ext) (game : Game) : GameResult :=
  analyze_game_loop ext game.start 1 ⟨[], [], []⟩ game.moves

/-- The `while game_count < 5` loop of `analyze_pgn_file`; the PGN stream is
modelled as the list of games `chess.pgn.read_game` would yield in order,
and the results dictionary as an association list in insertion order. -/
def analyze_pgn_loop (ext : Ext) : Nat → List Game → List (String × GameResult)
  | _, [] => []
  | game_count, g :: rest =>
    if game_count < 5 then
      ("game_" ++ toString (game_count + 1), analyze_game ext g) ::
        analyze_pgn_loop ext (game_count + 1) rest
    else []

/-- `analyze_pgn_file(pgn_file_path)` on an already-parsed game stream (file
opening and parse errors are handled by the external PGN collaborator). -/
def analyze_pgn_file (ext : Ext) (games : List Game) : List (String × GameResult) :=
  analyze_pgn_loop ext 0 games

/-- Replaying a move list from a board: every move legal for its position. -/
def replay_legal (ext : Ext) : Board → List Move → Bool
  | _, [] => true
  | b, m :: rest => ext.isLegal b m && replay_legal ext (push b m) rest

/-- The board reached after pushing a list of moves in order. -/
def board_after (b : Board) : List Move → Board
  | [] => b
  | m :: rest => board_after (push b m) rest

/-- Build a concrete snapshot from a square/piece association list, the side
to move and the two king squares (white king square first). -/
def board_of (l : List (Int × Piece)) (turn : Color) (wk bk : Int) : Board :=
  { pieceAt := fun sq => (l.find? (fun e => e.1 == sq)).map (fun e => e.2)
    turn := turn
    kingSq := fun c => if c then wk else bk }

/-- White to move: white Ra1 and Kh1, black Qc1, Re1 and Ka8.  The white
rook's eastward ray meets the black queen (value 9) then the black rook
(value 5). -/
def skewerValueBoard : Board :=
  board_of [(0, ⟨.rook, true⟩), (7, ⟨.king, true⟩), (2, ⟨.queen, false⟩),
    (4, ⟨.rook, false⟩), (56, ⟨.king, false⟩)] true 7 56

/-- White to move: white Rh1 and Ke1, black Qa2, Pb2 and Kh8.  The only
black pieces reachable from h1 without crossing the board edge are none at
all; a2 and b2 lie past the wrap-around of the linear index. -/
def wrapBoard : Board :=
  board_of [(7, ⟨.rook, true⟩), (4, ⟨.king, true⟩), (8, ⟨.queen, false⟩),
    (9, ⟨.pawn, false⟩), (63, ⟨.king, false⟩)] true 4 63

/-- White to move: white Ka1 and Nc2, black Bd3 and Kh8.  The knight, the
bishop and the white king are not colinear and nothing attacks a1. -/
def falsePinBoard : Board :=
  board_of [(0, ⟨.king, true⟩), (10, ⟨.knight, true⟩), (19, ⟨.bishop, false⟩),
    (63, ⟨.king, false⟩)] true 0 63

/-- White to move: white Pe2, Ke1, Rh5 and Nh3, black Qh8 and Ka8.  After
the quiet pawn push e2–e3, the black queen on h8 skewers the white rook on
h5 against the white knight on h3. -/
def tacticSideBoard : Board :=
  board_of [(12, ⟨.pawn, true⟩), (4, ⟨.king, true⟩), (39, ⟨.rook, true⟩),
    (23, ⟨.knight, true⟩), (63, ⟨.queen, false⟩), (56, ⟨.king, false⟩)] true 4 56

/-- The pawn push e2–e3 on `tacticSideBoard`. -/
def tacticSideMove : Move := ⟨12, 20, none⟩

/-- The skewer record the Move-Tactic Evaluator returns on
`tacticSideBoard` / `tacticSideMove`. -/
def tacticSideRec : SkewerRec := ⟨.queen, "h8", .rook, "h5", .knight, "h3"⟩

/-- An empty snapshot (no pieces), used to instantiate hypotheses of the
analyzer theorems at a concrete input. -/
def emptyBoard : Board := ⟨fun _ => none, true, fun _ => 4⟩

/-- A concrete non-null move, e2–e3. -/
def sampleMove : Move := ⟨12, 20, none⟩

/-- A concrete oracle handle whose engine never answers and whose rules
engine accepts every move and never reports game over. -/
def extNoOracle : Ext := ⟨fun _ => none, fun _ => false, fun _ _ => true⟩

/-- A concrete oracle handle whose rules engine rejects every move. -/
def extAllIllegal : Ext := ⟨fun _ => none, fun _ => true, fun _ _ => false⟩

/-- A variant of `skewerValueBoard` that differs from it as a function
(off-board squares are reported occupied) but agrees with it on every
on-board query. -/
def skewerValueBoardOffboard : Board :=
  { pieceAt := fun sq =>
      if 0 ≤ sq ∧ sq < 64 then skewerValueBoard.pieceAt sq
      else some ⟨.pawn, true⟩
    turn := skewerValueBoard.turn
    kingSq := skewerValueBoard.kingSq }

/-! ### General lemmas about the embedded definitions -/

theorem foldl_invariant {α β : Type} (P : α → Prop) :
    ∀ (l : List β) (f : List α → β → List α),
      (∀ acc x, x ∈ l → (∀ r ∈ acc, P r) → ∀ r ∈ f acc x, P r) →
      ∀ acc : List α, (∀ r ∈ acc, P r) → ∀ r ∈ l.foldl f acc, P r := by
  intro l
  induction l with
  | nil => intro f _ acc h; exact h
  | cons x xs ih =>
    intro f hstep acc h
    exact ih f (fun acc2 y hy => hstep acc2 y (List.mem_cons_of_mem x hy))
      (f acc x) (hstep acc x (List.mem_cons_self x xs) h)

theorem in_board_iff {sq : Int} : in_board sq = true ↔ 0 ≤ sq ∧ sq < 64 := by
  simp [in_board]

theorem mem_squares_asc {sq : Int} (h : sq ∈ squares_asc) : 0 ≤ sq ∧ sq < 64 := by
  simp only [squares_asc, List.mem_map, List.mem_range] at h
  obtain ⟨n, hn, rfl⟩ := h
  refine ⟨Int.ofNat_nonneg n, ?_⟩
  show (n : Int) < 64
  exact_mod_cast hn

theorem pin_mask_at_king (b : Board) (c : Color) (x : Int) :
    pin_mask_mem b c (b.kingSq c) x = true := by
  unfold pin_mask_mem
  simp

theorem push_turn (b : Board) (m : Move) : (push b m).turn = !b.turn := by
  unfold push
  cases b.pieceAt m.from_sq <;> rfl

theorem if_isEmpty {α : Type} (l : List α) :
    (if l.isEmpty then ([] : List α) else l) = l := by
  cases l <;> simp

/-! ### Claim theorems -/

/-- Claim C1 (counterexample): the Skewer Detector does return a record
whose front-piece value exceeds its back-piece value — on `skewerValueBoard`
(white Ra1 against black Qc1 then black Re1) the single record it returns
has front target queen (value 9) and back target rook (value 5), so the
claimed invariant value(back) > value(front) is false. -/
theorem c1_counterexample :
    detect_skewers skewerValueBoard =
      [⟨PieceType.rook, "a1", PieceType.queen, "c1", PieceType.rook, "e1"⟩] ∧
    (detect_skewers skewerValueBoard).all
      (fun r => decide (piece_values r.back_target > piece_values r.front_target))
      = false := by
  exact ⟨by decide, by decide⟩

/-- Claim C2 (code bug, evaluation): the ray walk of
`find_skewers_from_piece` continues across the board edge — on `wrapBoard`
the white rook on h1 (square 7) walking direction (1, 0) steps to linear
index 8, which is square a2 on a non-adjacent file, and the detector
consequently reports a phantom skewer of a2/b2 from h1 even though h1 and
a2 are not colinear. -/
theorem c2_wraparound_eval :
    detect_skewers wrapBoard =
      [⟨PieceType.rook, "h1", PieceType.queen, "a2", PieceType.pawn, "b2"⟩] ∧
    square_name 7 = "h1" ∧ square_name 8 = "a2" ∧
    colinear 7 8 = false ∧ square_file 7 = 7 ∧ square_file 8 = 0 := by
  exact ⟨by decide, by decide, by decide, by decide, by decide, by decide⟩

/-- Claim C4 (code bug, evaluation): the Pin Detector reports a Pin that
does not satisfy the removal-gives-check characterisation — on
`falsePinBoard` it reports the white knight on c2 pinned by the black
bishop on d3 against the white king on a1, yet d3 and a1 are not even
colinear, so the bishop cannot give check along any line through c2
(the mask `pin_mask(turn, king(turn))` is computed at the king's own square
and is therefore the full board, and `find_pinning_piece` never checks
colinearity of the pinned piece with the king). -/
theorem c4_false_pin_eval :
    detect_pins falsePinBoard =
      [⟨PieceType.knight, "c2", PieceType.bishop, "d3"⟩] ∧
    square_name 19 = "d3" ∧ square_name 0 = "a1" ∧
    falsePinBoard.kingSq falsePinBoard.turn = 0 ∧
    colinear 19 0 = false := by
  exact ⟨by decide, by decide, by decide, by decide, by decide⟩

/-- Claim C3 (counterexample): the Move-Tactic Evaluator returns a Skewer
whose attacking piece belongs to the opponent of the side that just moved —
after white's quiet pawn push e2–e3 on `tacticSideBoard` the returned
record's attacker is the black queen on h8 while white (turn = true) played
the move. -/
theorem c3_counterexample :
    (move_creates_pin_or_skewer tacticSideBoard tacticSideMove).1 =
      [TacticRec.skewer tacticSideRec] ∧
    tacticSideRec.attacking_square = square_name 63 ∧
    (push tacticSideBoard tacticSideMove).pieceAt 63 =
      some ⟨PieceType.queen, false⟩ ∧
    tacticSideBoard.turn = true := by
  exact ⟨by decide, by decide, by decide, by decide⟩

/-- Claim C7: the Move-Tactic Evaluator does not mutate its input snapshot —
the caller-visible board after the call answers every piece-placement,
side-to-move and king-square query exactly as the input board did (the
source operates on `board.copy()` only). -/
theorem c7_no_mutation (b : Board) (m : Move) :
    (∀ sq, ((move_creates_pin_or_skewer b m).2).pieceAt sq = b.pieceAt sq) ∧
    ((move_creates_pin_or_skewer b m).2).turn = b.turn ∧
    (∀ c, ((move_creates_pin_or_skewer b m).2).kingSq c = b.kingSq c) := by
  exact ⟨fun _ => rfl, rfl, fun _ => rfl⟩

/-- Claim C10: the Position Analyzer called with a missing (`None`) played
move returns a result with empty executed, missed and allowed lists, and
does so independently of the oracle handle (so no oracle query and no move
application can influence it). -/
theorem c10_none_move_empty (ext : Ext) (b : Board) :
    analyze_position ext b none = ⟨[], [], []⟩ ∧
    (∀ ext2 : Ext, analyze_position ext b none = analyze_position ext2 b none) := by
  exact ⟨rfl, fun _ => rfl⟩

theorem analyze_game_loop_truncate (ext : Ext) (m : Move) (post : List Move) :
    ∀ (pre : List Move) (board : Board) (n : Nat) (acc : GameResult),
      replay_legal ext board pre = true →
      ext.isLegal (board_after board pre) m = false →
      analyze_game_loop ext board n acc (pre ++ m :: post) =
        analyze_game_loop ext board n acc pre := by
  intro pre
  induction pre with
  | nil =>
    intro board n acc _ hm
    simp only [board_after] at hm
    simp [analyze_game_loop, hm]
  | cons mv pre ih =>
    intro board n acc hpre hm
    simp only [replay_legal, Bool.and_eq_true] at hpre
    simp only [board_after] at hm
    simp only [List.cons_append, analyze_game_loop, hpre.1, if_true]
    exact ih (push board mv) _ _ hpre.2 hm

/-- Claim C5: a game whose mainline is legal for its first k−1 plies and
illegal at ply k is analyzed exactly as the game truncated to those k−1
plies — the Game Analyzer returns the tagged records accumulated from plies
1..k−1 and never processes the rest (and, being a total function, returns
normally). -/
theorem c5_illegal_truncates (ext : Ext) (b : Board) (pre : List Move)
    (m : Move) (post : List Move)
    (hpre : replay_legal ext b pre = true)
    (hm : ext.isLegal (board_after b pre) m = false) :
    analyze_game ext ⟨b, pre ++ m :: post⟩ = analyze_game ext ⟨b, pre⟩ :=
  analyze_game_loop_truncate ext m post pre b 1 ⟨[], [], []⟩ hpre hm

/-- Witness for C5 at a concrete input: a one-move game whose single move is
illegal is analyzed like the empty game. -/
theorem c5_illegal_truncates_witness :
    analyze_game extAllIllegal ⟨emptyBoard, [sampleMove]⟩ =
      analyze_game extAllIllegal ⟨emptyBoard, []⟩ :=
  c5_illegal_truncates extAllIllegal emptyBoard [] sampleMove [] rfl rfl

/-- Claim C6: when the pre-move oracle query returns no recommendation the
`missed` list is empty, when the post-move query returns none the `allowed`
list is empty, and in all cases `executed` is exactly the tactics of the
played move (the analyzer is total, so it returns without error). -/
theorem c6_oracle_degradation (ext : Ext) (b : Board) (m : Move)
    (hm : move_truthy m = true) :
    (analyze_position ext b (some m)).executed =
      (move_creates_pin_or_skewer b m).1 ∧
    (ext.bestMove b = none → (analyze_position ext b (some m)).missed = []) ∧
    (ext.bestMove (push b m) = none →
      (analyze_position ext b (some m)).allowed = []) := by
  have hfal : opt_move_falsy (some m) = false := by
    simp [opt_move_falsy, hm]
  refine ⟨?_, ?_, ?_⟩
  · simp only [analyze_position, hfal, Bool.false_eq_true, if_false, if_isEmpty]
  · intro h
    simp only [analyze_position, hfal, Bool.false_eq_true, if_false, h]
  · intro h
    simp only [analyze_position, hfal, Bool.false_eq_true, if_false, h]
    cases hgo : ext.isGameOver (push b m) <;> simp [hgo]

/-- Witness for C6 at a concrete input: with an oracle that never answers,
`missed` and `allowed` are empty and `executed` equals the played move's
tactics. -/
theorem c6_oracle_degradation_witness :
    (analyze_position extNoOracle emptyBoard (some sampleMove)).executed =
      (move_creates_pin_or_skewer emptyBoard sampleMove).1 ∧
    (analyze_position extNoOracle emptyBoard (some sampleMove)).missed = [] ∧
    (analyze_position extNoOracle emptyBoard (some sampleMove)).allowed = [] :=
  ⟨(c6_oracle_degradation extNoOracle emptyBoard sampleMove (by decide)).1,
   (c6_oracle_degradation extNoOracle emptyBoard sampleMove (by decide)).2.1 rfl,
   (c6_oracle_degradation extNoOracle emptyBoard sampleMove (by decide)).2.2 rfl⟩

theorem analyze_pgn_loop_take (ext : Ext) :
    ∀ (games : List Game) (count : Nat),
      analyze_pgn_loop ext count games =
        analyze_pgn_loop ext count (games.take (5 - count)) ∧
      (analyze_pgn_loop ext count games).length ≤ 5 - count := by
  intro games
  induction games with
  | nil => intro count; simp [analyze_pgn_loop]
  | cons g rest ih =>
    intro count
    by_cases h : count < 5
    · have htake : (g :: rest).take (5 - count) = g :: rest.take (4 - count) := by
        have : 5 - count = (4 - count) + 1 := by omega
        simp [this]
      have h4 : 4 - count = 5 - (count + 1) := by omega
      obtain ⟨ih1, ih2⟩ := ih (count + 1)
      constructor
      · rw [htake]
        simp only [analyze_pgn_loop, h, if_true]
        rw [h4]
        exact congrArg _ ih1
      · simp only [analyze_pgn_loop, h, if_true, List.length_cons]
        omega
    · have h0 : 5 - count = 0 := by omega
      simp [analyze_pgn_loop, h, h0]

/-- Claim C9: `analyze_pgn_file` analyzes at most the first five games of
the stream — its result equals the result on the stream truncated to five
games and never has more than five entries. -/
theorem c9_five_game_limit (ext : Ext) (games : List Game) :
    (analyze_pgn_file ext games).length ≤ 5 ∧
    analyze_pgn_file ext games = analyze_pgn_file ext (games.take 5) := by
  obtain ⟨h1, h2⟩ := analyze_pgn_loop_take ext games 0
  exact ⟨h2, h1⟩

theorem skewer_walk_values (b : Board) (att : Color) (fd rd : Int) :
    ∀ (fuel : Nat) (cur : Int) (acc : List LinePiece),
      (∀ lp ∈ acc, lp.value = piece_values lp.piece_type) →
      ∀ lp ∈ skewer_walk b att fd rd fuel cur acc,
        lp.value = piece_values lp.piece_type := by
  intro fuel
  induction fuel with
  | zero => intro cur acc hacc; simpa [skewer_walk] using hacc
  | succ n ih =>
    intro cur acc hacc lp hlp
    simp only [skewer_walk] at hlp
    split at hlp
    · split at hlp
      · split at hlp
        · split at hlp
          · rcases List.mem_append.1 hlp with h | h
            · exact hacc lp h
            · rcases List.mem_singleton.1 h with rfl
              rfl
          · refine ih _ _ ?_ lp hlp
            intro q hq
            rcases List.mem_append.1 hq with h | h
            · exact hacc q h
            · rcases List.mem_singleton.1 h with rfl
              rfl
        · exact hacc lp hlp
      · exact ih _ _ hacc lp hlp
    · exact hacc lp hlp

theorem find_skewers_from_piece_value (b : Board) (ps : Int) (piece : Piece) :
    ∀ r ∈ find_skewers_from_piece b ps piece,
      piece_values r.back_target < piece_values r.front_target := by
  unfold find_skewers_from_piece
  refine foldl_invariant _ _ _ ?_ _ (by simp)
  intro acc dir _ hacc r hr
  replace hr : r ∈
      match skewer_walk b piece.color dir.1 dir.2 64 ps [] with
      | [front_piece, back_piece] =>
        if front_piece.value > back_piece.value then
          acc ++ [SkewerRec.mk piece.piece_type (square_name ps)
            front_piece.piece_type (square_name front_piece.square)
            back_piece.piece_type (square_name back_piece.square)]
        else acc
      | _ => acc := hr
  split at hr
  · next front back hw =>
    split at hr
    · next hgt =>
      rcases List.mem_append.1 hr with h | h
      · exact hacc r h
      · rcases List.mem_singleton.1 h with rfl
        have hfront : front ∈ skewer_walk b piece.color dir.1 dir.2 64 ps [] := by
          rw [hw]; simp
        have hback : back ∈ skewer_walk b piece.color dir.1 dir.2 64 ps [] := by
          rw [hw]; simp
        have hf := skewer_walk_values b piece.color dir.1 dir.2 64 ps []
          (by simp) front hfront
        have hb := skewer_walk_values b piece.color dir.1 dir.2 64 ps []
          (by simp) back hback
        simpa [hf, hb] using hgt
    · exact hacc r hr
  · exact hacc r hr

theorem detect_skewers_value (b : Board) :
    ∀ r ∈ detect_skewers b,
      piece_values r.back_target < piece_values r.front_target := by
  unfold detect_skewers
  refine foldl_invariant _ _ _ ?_ _ (by simp)
  intro acc sq _ hacc r hr
  split at hr
  · split at hr
    · rcases List.mem_append.1 hr with h | h
      · exact hacc r h
      · exact find_skewers_from_piece_value b sq _ r h
    · exact hacc r hr
  · exact hacc r hr

/-- Claim C1 (amended): every Skewer record returned by `detect_skewers`
and by `find_skewers_from_piece` satisfies value(front target) >
value(back target) under the PieceValue table — the strict inequality the
source enforces is on the front piece, not the back piece. -/
theorem c1_amended_skewer_value (b : Board) (ps : Int) (piece : Piece) :
    ((detect_skewers b).all
      (fun r => decide (piece_values r.front_target > piece_values r.back_target))
      = true) ∧
    ((find_skewers_from_piece b ps piece).all
      (fun r => decide (piece_values r.front_target > piece_values r.back_target))
      = true) := by
  constructor
  · simp only [List.all_eq_true, decide_eq_true_eq]
    exact fun r hr => detect_skewers_value b r hr
  · simp only [List.all_eq_true, decide_eq_true_eq]
    exact fun r hr => find_skewers_from_piece_value b ps piece r hr

theorem bool_eq_not_of_bne {x y : Bool} (h : (x != y) = true) : x = !y := by
  cases x <;> cases y <;> simp_all

theorem find_pinning_loop_sound (b : Board) (fd rd : Int) :
    ∀ (fuel : Nat) (cur : Int) (pp : PinnerInfo),
      find_pinning_loop b fd rd fuel cur = some pp →
      ∃ sq p, (0 ≤ sq ∧ sq < 64) ∧ pp.square = square_name sq ∧
        pp.piece_type = p.piece_type ∧ b.pieceAt sq = some p ∧
        p.color = !b.turn := by
  intro fuel
  induction fuel with
  | zero =>
    intro cur pp h
    exact absurd h (by simp [find_pinning_loop])
  | succ n ih =>
    intro cur pp h
    replace h : (if in_board (cur - fd - 8 * rd) then
        match b.pieceAt (cur - fd - 8 * rd) with
        | some piece =>
          if piece.color != b.turn && can_piece_pin piece.piece_type fd rd then
            some (PinnerInfo.mk piece.piece_type (square_name (cur - fd - 8 * rd)))
          else none
        | none => find_pinning_loop b fd rd n (cur - fd - 8 * rd)
      else none) = some pp := h
    split at h
    · next hin =>
      obtain ⟨h0, h1⟩ := in_board_iff.1 hin
      split at h
      · next piece hp =>
        split at h
        · next hcond =>
          rw [Bool.and_eq_true] at hcond
          obtain ⟨hbne, _⟩ := hcond
          obtain rfl := Option.some.inj h
          exact ⟨cur - fd - 8 * rd, piece, ⟨h0, h1⟩, rfl, rfl, hp,
            bool_eq_not_of_bne hbne⟩
        · exact absurd h (by simp)
      · exact ih _ pp h
    · exact absurd h (by simp)

theorem detect_pins_sound (b : Board) :
    ∀ r ∈ detect_pins b, ∃ sq p, (0 ≤ sq ∧ sq < 64) ∧
      r.pinning_square = square_name sq ∧ r.pinning_piece = p.piece_type ∧
      b.pieceAt sq = some p ∧ p.color = !b.turn := by
  unfold detect_pins
  refine foldl_invariant _ _ _ ?_ _ (by simp)
  intro acc square _ hacc r hr
  split at hr
  · split at hr
    · next piece _ =>
      split at hr
      · split at hr
        · next pp hfind =>
          rcases List.mem_append.1 hr with h | h
          · exact hacc r h
          · rcases List.mem_singleton.1 h with rfl
            obtain ⟨sq, p, hb, hsq, hpt, hp, hc⟩ :=
              find_pinning_loop_sound b _ _ 64 square pp hfind
            exact ⟨sq, p, hb, hsq, hpt, hp, hc⟩
        · exact hacc r hr
      · exact hacc r hr
    · exact hacc r hr
  · exact hacc r hr

theorem find_skewers_from_piece_attacker (b : Board) (ps : Int) (piece : Piece) :
    ∀ r ∈ find_skewers_from_piece b ps piece,
      r.attacking_piece = piece.piece_type ∧ r.attacking_square = square_name ps := by
  unfold find_skewers_from_piece
  refine foldl_invariant _ _ _ ?_ _ (by simp)
  intro acc dir _ hacc r hr
  replace hr : r ∈
      match skewer_walk b piece.color dir.1 dir.2 64 ps [] with
      | [front_piece, back_piece] =>
        if front_piece.value > back_piece.value then
          acc ++ [SkewerRec.mk piece.piece_type (square_name ps)
            front_piece.piece_type (square_name front_piece.square)
            back_piece.piece_type (square_name back_piece.square)]
        else acc
      | _ => acc := hr
  split at hr
  · split at hr
    · rcases List.mem_append.1 hr with h | h
      · exact hacc r h
      · rcases List.mem_singleton.1 h with rfl
        exact ⟨rfl, rfl⟩
    · exact hacc r hr
  · exact hacc r hr

theorem detect_skewers_attacker (b : Board) :
    ∀ r ∈ detect_skewers b, ∃ sq p, (0 ≤ sq ∧ sq < 64) ∧
      r.attacking_square = square_name sq ∧ r.attacking_piece = p.piece_type ∧
      b.pieceAt sq = some p ∧ p.color = b.turn := by
  unfold detect_skewers
  refine foldl_invariant _ _ _ ?_ _ (by simp)
  intro acc square hsquare hacc r hr
  split at hr
  · next piece hp =>
    split at hr
    · next hcond =>
      rcases List.mem_append.1 hr with h | h
      · exact hacc r h
      · obtain ⟨hpt, hsq⟩ := find_skewers_from_piece_attacker b square piece r h
        rw [Bool.and_eq_true] at hcond
        obtain ⟨hbeq, _⟩ := hcond
        exact ⟨square, piece, mem_squares_asc hsquare, hsq, hpt, hp,
          eq_of_beq hbeq⟩
    · exact hacc r hr
  · exact hacc r hr

/-- Claim C3 (amended): every tactic returned by the Move-Tactic Evaluator
names, on the post-move position, a Pin whose pinning piece belongs to the
side that just moved, and a Skewer whose attacking piece belongs to the
*opponent* of the side that just moved (the side to move on the post-move
position, whose sliders `detect_skewers` scans). -/
theorem c3_amended_sides (b : Board) (m : Move) (t : TacticRec)
    (ht : t ∈ (move_creates_pin_or_skewer b m).1) :
    (∀ r, t = TacticRec.pin r → ∃ sq p, (0 ≤ sq ∧ sq < 64) ∧
        r.pinning_square = square_name sq ∧
        (push b m).pieceAt sq = some p ∧ p.color = b.turn) ∧
    (∀ r, t = TacticRec.skewer r → ∃ sq p, (0 ≤ sq ∧ sq < 64) ∧
        r.attacking_square = square_name sq ∧
        (push b m).pieceAt sq = some p ∧ p.color = !b.turn) := by
  replace ht : t ∈ ((detect_pins (push b m)).map TacticRec.pin) ++
      ((detect_skewers (push b m)).map TacticRec.skewer) := ht
  rcases List.mem_append.1 ht with h | h
  · rcases List.mem_map.1 h with ⟨r0, hr0, rfl⟩
    constructor
    · intro r hr
      injection hr with hr
      subst hr
      obtain ⟨sq, p, hb, hsq, _, hp, hc⟩ := detect_pins_sound (push b m) r0 hr0
      refine ⟨sq, p, hb, hsq, hp, ?_⟩
      rw [hc, push_turn, Bool.not_not]
    · intro r hr
      exact absurd hr (by simp)
  · rcases List.mem_map.1 h with ⟨r0, hr0, rfl⟩
    constructor
    · intro r hr
      exact absurd hr (by simp)
    · intro r hr
      injection hr with hr
      subst hr
      obtain ⟨sq, p, hb, hsq, _, hp, hc⟩ := detect_skewers_attacker (push b m) r0 hr0
      refine ⟨sq, p, hb, hsq, hp, ?_⟩
      rw [hc, push_turn]

/-- Witness for C3 (amended) at a concrete input: on `tacticSideBoard`
after e2–e3 the returned skewer's attacker stands on h8 (square 63) and is
the black queen, the opponent of white who moved. -/
theorem c3_amended_sides_witness :
    (TacticRec.skewer tacticSideRec ∈
      (move_creates_pin_or_skewer tacticSideBoard tacticSideMove).1) ∧
    (∀ r, TacticRec.skewer tacticSideRec = TacticRec.pin r →
      ∃ sq p, (0 ≤ sq ∧ sq < 64) ∧ r.pinning_square = square_name sq ∧
        (push tacticSideBoard tacticSideMove).pieceAt sq = some p ∧
        p.color = tacticSideBoard.turn) ∧
    (∀ r, TacticRec.skewer tacticSideRec = TacticRec.skewer r →
      ∃ sq p, (0 ≤ sq ∧ sq < 64) ∧ r.attacking_square = square_name sq ∧
        (push tacticSideBoard tacticSideMove).pieceAt sq = some p ∧
        p.color = !tacticSideBoard.turn) :=
  ⟨by decide,
    (c3_amended_sides tacticSideBoard tacticSideMove
      (TacticRec.skewer tacticSideRec) (by decide)).1,
    (c3_amended_sides tacticSideBoard tacticSideMove
      (TacticRec.skewer tacticSideRec) (by decide)).2⟩

theorem find_pinning_loop_congr (b b2 : Board)
    (hp : ∀ sq : Int, 0 ≤ sq → sq < 64 → b.pieceAt sq = b2.pieceAt sq)
    (ht : b.turn = b2.turn) :
    ∀ (fuel : Nat) (fd rd cur : Int),
      find_pinning_loop b fd rd fuel cur = find_pinning_loop b2 fd rd fuel cur := by
  intro fuel
  induction fuel with
  | zero => intro fd rd cur; rfl
  | succ n ih =>
    intro fd rd cur
    simp only [find_pinning_loop]
    cases h : in_board (cur - fd - 8 * rd) with
    | false => simp [h]
    | true =>
      obtain ⟨h0, h1⟩ := in_board_iff.1 h
      simp only [h, if_true]
      rw [hp _ h0 h1, ht]
      cases b2.pieceAt (cur - fd - 8 * rd) with
      | none => exact ih fd rd _
      | some piece => rfl

theorem find_pinning_piece_congr (b b2 : Board)
    (hp : ∀ sq : Int, 0 ≤ sq → sq < 64 → b.pieceAt sq = b2.pieceAt sq)
    (ht : b.turn = b2.turn) (ps ks : Int) :
    find_pinning_piece b ps ks = find_pinning_piece b2 ps ks :=
  find_pinning_loop_congr b b2 hp ht 64 _ _ ps

theorem skewer_walk_congr (b b2 : Board)
    (hp : ∀ sq : Int, 0 ≤ sq → sq < 64 → b.pieceAt sq = b2.pieceAt sq) :
    ∀ (fuel : Nat) (att : Color) (fd rd cur : Int) (acc : List LinePiece),
      skewer_walk b att fd rd fuel cur acc = skewer_walk b2 att fd rd fuel cur acc := by
  intro fuel
  induction fuel with
  | zero => intro att fd rd cur acc; rfl
  | succ n ih =>
    intro att fd rd cur acc
    simp only [skewer_walk]
    cases h : in_board (cur + fd + 8 * rd) with
    | false => simp [h]
    | true =>
      obtain ⟨h0, h1⟩ := in_board_iff.1 h
      simp only [h, if_true]
      rw [hp _ h0 h1]
      cases b2.pieceAt (cur + fd + 8 * rd) with
      | none => exact ih att fd rd _ acc
      | some target => simp only [ih]

theorem find_skewers_from_piece_congr (b b2 : Board)
    (hp : ∀ sq : Int, 0 ≤ sq → sq < 64 → b.pieceAt sq = b2.pieceAt sq)
    (ps : Int) (piece : Piece) :
    find_skewers_from_piece b ps piece = find_skewers_from_piece b2 ps piece := by
  unfold find_skewers_from_piece
  refine List.foldl_ext _ _ _ ?_
  intro acc dir _
  rw [skewer_walk_congr b b2 hp 64 piece.color dir.1 dir.2 ps []]

theorem detect_skewers_congr (b b2 : Board)
    (hp : ∀ sq : Int, 0 ≤ sq → sq < 64 → b.pieceAt sq = b2.pieceAt sq)
    (ht : b.turn = b2.turn) :
    detect_skewers b = detect_skewers b2 := by
  unfold detect_skewers
  refine List.foldl_ext _ _ _ ?_
  intro acc sq hsq
  obtain ⟨h0, h1⟩ := mem_squares_asc hsq
  rw [hp _ h0 h1, ht]
  cases b2.pieceAt sq with
  | none => rfl
  | some piece => simp only [find_skewers_from_piece_congr b b2 hp]

theorem detect_pins_congr (b b2 : Board)
    (hp : ∀ sq : Int, 0 ≤ sq → sq < 64 → b.pieceAt sq = b2.pieceAt sq)
    (ht : b.turn = b2.turn)
    (hk : ∀ c, b.kingSq c = b2.kingSq c) :
    detect_pins b = detect_pins b2 := by
  unfold detect_pins
  refine List.foldl_ext _ _ _ ?_
  intro acc sq hsq
  obtain ⟨h0, h1⟩ := mem_squares_asc hsq
  simp only [pin_mask_at_king, if_true]
  rw [hp _ h0 h1, ht, hk]
  simp only [find_pinning_piece_congr b b2 hp ht]

/-- Claim C8: both detectors are deterministic functions of the snapshot
with stable output ordering — any two snapshots that answer the
piece-placement (on every on-board square), side-to-move and king-square
queries identically produce identical output lists, in particular running a
detector twice on the same snapshot yields the same list in the same
order. -/
theorem c8_deterministic (b b2 : Board)
    (hp : ∀ sq : Int, 0 ≤ sq → sq < 64 → b.pieceAt sq = b2.pieceAt sq)
    (ht : b.turn = b2.turn)
    (hk : ∀ c, b.kingSq c = b2.kingSq c) :
    detect_pins b = detect_pins b2 ∧ detect_skewers b = detect_skewers b2 :=
  ⟨detect_pins_congr b b2 hp ht hk, detect_skewers_congr b b2 hp ht⟩

/-- Witness for C8 at a concrete input: `skewerValueBoardOffboard` is a
different function from `skewerValueBoard` (they disagree off the board)
but agrees on every snapshot query, and both detectors return the same
lists on the two. -/
theorem c8_deterministic_witness :
    detect_pins skewerValueBoard = detect_pins skewerValueBoardOffboard ∧
    detect_skewers skewerValueBoard = detect_skewers skewerValueBoardOffboard :=
  c8_deterministic skewerValueBoard skewerValueBoardOffboard
    (fun sq h0 h1 => by
      show skewerValueBoard.pieceAt sq =
        if 0 ≤ sq ∧ sq < 64 then skewerValueBoard.pieceAt sq
        else some ⟨.pawn, true⟩
      rw [if_pos ⟨h0, h1⟩])
    rfl (fun _ => rfl)

end PinSkewer
